import Mathlib

/-
Verification of the Black-Scholes-Merton pricing engine in
src/python/bsm_greeks.py.

Modelling choices:
  * Python floats are modelled by real numbers.
  * Python raises exceptions where its arithmetic is partial: float
    division by zero raises ZeroDivisionError, and math.log / math.sqrt
    raise ValueError outside their domains.  These fallible operations are
    modelled by pyDiv, pyLog and pySqrt returning Except PyErr.
  * Divisions by the positive literal constants sqrt 2, sqrt (2*pi) and
    10000.0, and by 0.01-style multiplications, can never raise in Python
    and are modelled by total real division.
-/

open Real MeasureTheory intervalIntegral Set

/-- Exception kinds raised by Python arithmetic and math-library calls. -/
inductive PyErr where
  | zeroDivision : PyErr
  | domainError : PyErr
  deriving DecidableEq

/-- Python float division: raises ZeroDivisionError when the divisor is zero. -/
noncomputable def pyDiv (a b : ℝ) : Except PyErr ℝ :=
  if b = 0 then .error .zeroDivision else .ok (a / b)

/-- Python math.log: raises ValueError (math domain error) off the positive reals. -/
noncomputable def pyLog (x : ℝ) : Except PyErr ℝ :=
  if x ≤ 0 then .error .domainError else .ok (Real.log x)

/-- Python math.sqrt: raises ValueError on negative input. -/
noncomputable def pySqrt (x : ℝ) : Except PyErr ℝ :=
  if x < 0 then .error .domainError else .ok (Real.sqrt x)

/-- Model of Python math.erf, the Gauss error function. -/
noncomputable def erf (x : ℝ) : ℝ :=
  2 / Real.sqrt π * ∫ t in (0:ℝ)..x, Real.exp (-t ^ 2)

/-- Standard normal cumulative distribution function (source: norm_cdf). -/
noncomputable def norm_cdf (x : ℝ) : ℝ :=
  0.5 * (1.0 + erf (x / Real.sqrt 2))

/-- Standard normal probability density function (source: norm_pdf). -/
noncomputable def norm_pdf (x : ℝ) : ℝ :=
  Real.exp (-0.5 * x * x) / Real.sqrt (2 * π)

/-- Input record (source: BSMInputs dataclass). -/
structure BSMInputs where
  S0 : ℝ
  K : ℝ
  T : ℝ
  sigma : ℝ
  r : ℝ
  q : ℝ
  opt_type : String

/-- Output record (source: BSMOutputs dataclass). -/
structure BSMOutputs where
  price : ℝ
  delta : ℝ
  gamma : ℝ
  vega_per_vol : ℝ
  vega_per_volpt : ℝ
  theta_per_year : ℝ
  theta_per_day : ℝ
  rho_per_1 : ℝ
  rho_per_bp : ℝ
  phi_per_1 : ℝ
  phi_per_bp : ℝ

/-- Guard from the source: if T < 1e-6 then T = 1e-6. -/
noncomputable def clampT (t : ℝ) : ℝ :=
  if t < 1e-6 then 1e-6 else t

/-- Guard from the source: if sigma < 1e-8 then sigma = 1e-8. -/
noncomputable def clampSigma (s : ℝ) : ℝ :=
  if s < 1e-8 then 1e-8 else s

/-- Shallow embedding of price_and_greeks_bsm from src/python/bsm_greeks.py,
line by line; fallible Python operations go through pyDiv, pyLog, pySqrt. -/
noncomputable def price_and_greeks_bsm (inputs : BSMInputs) (theta_basis : ℤ) :
    Except PyErr BSMOutputs := do
  let S0 := inputs.S0
  let K := inputs.K
  let r := inputs.r
  let q := inputs.q
  let opt_type := inputs.opt_type
  let T := clampT inputs.T
  let sigma := clampSigma inputs.sigma
  let sk ← pyDiv S0 K
  let lsk ← pyLog sk
  let sqrtT ← pySqrt T
  let d1 ← pyDiv (lsk + (r - q + 0.5 * sigma ^ 2) * T) (sigma * sqrtT)
  let d2 := d1 - sigma * sqrtT
  let exp_qT := Real.exp (-q * T)
  let exp_rT := Real.exp (-r * T)
  let N_d1 := norm_cdf d1
  let N_d2 := norm_cdf d2
  let N_md1 := norm_cdf (-d1)
  let N_md2 := norm_cdf (-d2)
  let n_d1 := norm_pdf d1
  let branch ←
    if opt_type = "call" then do
      let thA ← pyDiv (-S0 * exp_qT * n_d1 * sigma) (2 * sqrtT)
      let price := S0 * exp_qT * N_d1 - K * exp_rT * N_d2
      let delta := exp_qT * N_d1
      let theta := thA + q * S0 * exp_qT * N_d1 - r * K * exp_rT * N_d2
      let rho := K * T * exp_rT * N_d2
      let phi := -T * S0 * exp_qT * N_d1
      pure (price, delta, theta, rho, phi)
    else do
      let thA ← pyDiv (-S0 * exp_qT * n_d1 * sigma) (2 * sqrtT)
      let price := K * exp_rT * N_md2 - S0 * exp_qT * N_md1
      let delta := exp_qT * N_d1 - exp_qT
      let theta := thA - q * S0 * exp_qT * N_md1 + r * K * exp_rT * N_md2
      let rho := -K * T * exp_rT * N_md2
      let phi := T * S0 * exp_qT * N_md1
      pure (price, delta, theta, rho, phi)
  let (price, delta, theta, rho, phi) := branch
  let gamma ← pyDiv (exp_qT * n_d1) (S0 * sigma * sqrtT)
  let vega := S0 * exp_qT * n_d1 * sqrtT
  let vega_per_volpt := vega * 0.01
  let theta_per_day ← pyDiv theta (theta_basis : ℝ)
  let rho_per_bp := rho / 10000.0
  let phi_per_bp := phi / 10000.0
  pure {
    price := price
    delta := delta
    gamma := gamma
    vega_per_vol := vega
    vega_per_volpt := vega_per_volpt
    theta_per_year := theta
    theta_per_day := theta_per_day
    rho_per_1 := rho
    rho_per_bp := rho_per_bp
    phi_per_1 := phi
    phi_per_bp := phi_per_bp }

/-- The d1 moneyness term of the source, on already-clamped T and sigma. -/
noncomputable def d1f (S0 K T sigma r q : ℝ) : ℝ :=
  (Real.log (S0 / K) + (r - q + 0.5 * sigma ^ 2) * T) / (sigma * Real.sqrt T)

/-- The d2 moneyness term of the source, on already-clamped T and sigma. -/
noncomputable def d2f (S0 K T sigma r q : ℝ) : ℝ :=
  d1f S0 K T sigma r q - sigma * Real.sqrt T

/-- The output record produced by the call branch, on already-clamped T and sigma. -/
noncomputable def callOutputs (S0 K T sigma r q : ℝ) (theta_basis : ℤ) : BSMOutputs :=
  let d1 := d1f S0 K T sigma r q
  let d2 := d2f S0 K T sigma r q
  let exp_qT := Real.exp (-q * T)
  let exp_rT := Real.exp (-r * T)
  let price := S0 * exp_qT * norm_cdf d1 - K * exp_rT * norm_cdf d2
  let delta := exp_qT * norm_cdf d1
  let theta := (-S0 * exp_qT * norm_pdf d1 * sigma) / (2 * Real.sqrt T) +
    q * S0 * exp_qT * norm_cdf d1 - r * K * exp_rT * norm_cdf d2
  let rho := K * T * exp_rT * norm_cdf d2
  let phi := -T * S0 * exp_qT * norm_cdf d1
  let gamma := exp_qT * norm_pdf d1 / (S0 * sigma * Real.sqrt T)
  let vega := S0 * exp_qT * norm_pdf d1 * Real.sqrt T
  { price := price
    delta := delta
    gamma := gamma
    vega_per_vol := vega
    vega_per_volpt := vega * 0.01
    theta_per_year := theta
    theta_per_day := theta / (theta_basis : ℝ)
    rho_per_1 := rho
    rho_per_bp := rho / 10000.0
    phi_per_1 := phi
    phi_per_bp := phi / 10000.0 }

/-- The output record produced by the put branch, on already-clamped T and sigma. -/
noncomputable def putOutputs (S0 K T sigma r q : ℝ) (theta_basis : ℤ) : BSMOutputs :=
  let d1 := d1f S0 K T sigma r q
  let d2 := d2f S0 K T sigma r q
  let exp_qT := Real.exp (-q * T)
  let exp_rT := Real.exp (-r * T)
  let price := K * exp_rT * norm_cdf (-d2) - S0 * exp_qT * norm_cdf (-d1)
  let delta := exp_qT * norm_cdf d1 - exp_qT
  let theta := (-S0 * exp_qT * norm_pdf d1 * sigma) / (2 * Real.sqrt T) -
    q * S0 * exp_qT * norm_cdf (-d1) + r * K * exp_rT * norm_cdf (-d2)
  let rho := -K * T * exp_rT * norm_cdf (-d2)
  let phi := T * S0 * exp_qT * norm_cdf (-d1)
  let gamma := exp_qT * norm_pdf d1 / (S0 * sigma * Real.sqrt T)
  let vega := S0 * exp_qT * norm_pdf d1 * Real.sqrt T
  { price := price
    delta := delta
    gamma := gamma
    vega_per_vol := vega
    vega_per_volpt := vega * 0.01
    theta_per_year := theta
    theta_per_day := theta / (theta_basis : ℝ)
    rho_per_1 := rho
    rho_per_bp := rho / 10000.0
    phi_per_1 := phi
    phi_per_bp := phi / 10000.0 }

/-- Reference scenario from the source's main block: the example call option. -/
noncomputable def exCall : BSMInputs :=
  { S0 := 100, K := 100, T := 0.5, sigma := 0.2, r := 0.03, q := 0.01, opt_type := "call" }

/-- The same scenario with the put selector. -/
noncomputable def exPut : BSMInputs :=
  { exCall with opt_type := "put" }

theorem clampT_lb (t : ℝ) : (1e-6 : ℝ) ≤ clampT t := by
  rcases lt_or_le t 1e-6 with h | h
  · rw [clampT, if_pos h]
  · simpa only [clampT, if_neg (not_lt.mpr h)] using h

theorem clampT_pos (t : ℝ) : 0 < clampT t :=
  lt_of_lt_of_le (by norm_num) (clampT_lb t)

theorem clampSigma_lb (s : ℝ) : (1e-8 : ℝ) ≤ clampSigma s := by
  rcases lt_or_le s 1e-8 with h | h
  · rw [clampSigma, if_pos h]
  · simpa only [clampSigma, if_neg (not_lt.mpr h)] using h

theorem clampSigma_pos (s : ℝ) : 0 < clampSigma s :=
  lt_of_lt_of_le (by norm_num) (clampSigma_lb s)

theorem sqrt_clampT_pos (t : ℝ) : 0 < Real.sqrt (clampT t) :=
  Real.sqrt_pos.mpr (clampT_pos t)

theorem except_bind_ok {α β : Type} (a : α) (f : α → Except PyErr β) :
    (Except.ok a : Except PyErr α) >>= f = f a := rfl

theorem except_bind_error {α β : Type} (e : PyErr) (f : α → Except PyErr β) :
    (Except.error e : Except PyErr α) >>= f = Except.error e := rfl

theorem except_pure_eq_ok {α : Type} (a : α) :
    (pure a : Except PyErr α) = Except.ok a := rfl

theorem eval_call_eq (inputs : BSMInputs) (theta_basis : ℤ)
    (hopt : inputs.opt_type = "call") (hK : inputs.K ≠ 0)
    (hpos : 0 < inputs.S0 / inputs.K) (hb : theta_basis ≠ 0) :
    price_and_greeks_bsm inputs theta_basis =
      Except.ok (callOutputs inputs.S0 inputs.K (clampT inputs.T)
        (clampSigma inputs.sigma) inputs.r inputs.q theta_basis) := by
  have hS0 : inputs.S0 ≠ 0 := by
    intro h
    rw [h, zero_div] at hpos
    exact lt_irrefl 0 hpos
  have hsig := clampSigma_pos inputs.sigma
  have hsqT := sqrt_clampT_pos inputs.T
  have h1 : clampSigma inputs.sigma * Real.sqrt (clampT inputs.T) ≠ 0 :=
    (mul_pos hsig hsqT).ne'
  have h2 : (2:ℝ) * Real.sqrt (clampT inputs.T) ≠ 0 :=
    (mul_pos two_pos hsqT).ne'
  have h3 : inputs.S0 * clampSigma inputs.sigma * Real.sqrt (clampT inputs.T) ≠ 0 :=
    mul_ne_zero (mul_ne_zero hS0 hsig.ne') hsqT.ne'
  have h4 : ((theta_basis : ℝ)) ≠ 0 := Int.cast_ne_zero.mpr hb
  have h5 : ¬ (inputs.S0 / inputs.K ≤ 0) := not_le.mpr hpos
  have h6 : ¬ (clampT inputs.T < 0) := not_lt.mpr (clampT_pos inputs.T).le
  simp only [price_and_greeks_bsm, pyDiv, pyLog, pySqrt, hopt,
    if_neg hK, if_neg h5, if_neg h6, if_neg h1, if_neg h2, if_neg h3, if_neg h4,
    if_true, except_bind_ok, except_pure_eq_ok,
    callOutputs, d1f, d2f]

theorem eval_put_eq (inputs : BSMInputs) (theta_basis : ℤ)
    (hopt : inputs.opt_type ≠ "call") (hK : inputs.K ≠ 0)
    (hpos : 0 < inputs.S0 / inputs.K) (hb : theta_basis ≠ 0) :
    price_and_greeks_bsm inputs theta_basis =
      Except.ok (putOutputs inputs.S0 inputs.K (clampT inputs.T)
        (clampSigma inputs.sigma) inputs.r inputs.q theta_basis) := by
  have hS0 : inputs.S0 ≠ 0 := by
    intro h
    rw [h, zero_div] at hpos
    exact lt_irrefl 0 hpos
  have hsig := clampSigma_pos inputs.sigma
  have hsqT := sqrt_clampT_pos inputs.T
  have h1 : clampSigma inputs.sigma * Real.sqrt (clampT inputs.T) ≠ 0 :=
    (mul_pos hsig hsqT).ne'
  have h2 : (2:ℝ) * Real.sqrt (clampT inputs.T) ≠ 0 :=
    (mul_pos two_pos hsqT).ne'
  have h3 : inputs.S0 * clampSigma inputs.sigma * Real.sqrt (clampT inputs.T) ≠ 0 :=
    mul_ne_zero (mul_ne_zero hS0 hsig.ne') hsqT.ne'
  have h4 : ((theta_basis : ℝ)) ≠ 0 := Int.cast_ne_zero.mpr hb
  have h5 : ¬ (inputs.S0 / inputs.K ≤ 0) := not_le.mpr hpos
  have h6 : ¬ (clampT inputs.T < 0) := not_lt.mpr (clampT_pos inputs.T).le
  simp only [price_and_greeks_bsm, pyDiv, pyLog, pySqrt, if_neg hopt,
    if_neg hK, if_neg h5, if_neg h6, if_neg h1, if_neg h2, if_neg h3, if_neg h4,
    except_bind_ok, except_pure_eq_ok,
    putOutputs, d1f, d2f]

theorem eval_err_K (inputs : BSMInputs) (theta_basis : ℤ) (hK : inputs.K = 0) :
    price_and_greeks_bsm inputs theta_basis = Except.error PyErr.zeroDivision := by
  simp only [price_and_greeks_bsm, pyDiv, if_pos hK, except_bind_error]

theorem eval_err_log (inputs : BSMInputs) (theta_basis : ℤ) (hK : inputs.K ≠ 0)
    (hle : inputs.S0 / inputs.K ≤ 0) :
    price_and_greeks_bsm inputs theta_basis = Except.error PyErr.domainError := by
  simp only [price_and_greeks_bsm, pyDiv, pyLog, if_neg hK, if_pos hle,
    except_bind_ok, except_bind_error]

theorem eval_err_basis (inputs : BSMInputs) (hK : inputs.K ≠ 0)
    (hpos : 0 < inputs.S0 / inputs.K) :
    price_and_greeks_bsm inputs 0 = Except.error PyErr.zeroDivision := by
  have hS0 : inputs.S0 ≠ 0 := by
    intro h
    rw [h, zero_div] at hpos
    exact lt_irrefl 0 hpos
  have hsig := clampSigma_pos inputs.sigma
  have hsqT := sqrt_clampT_pos inputs.T
  have h1 : clampSigma inputs.sigma * Real.sqrt (clampT inputs.T) ≠ 0 :=
    (mul_pos hsig hsqT).ne'
  have h2 : (2:ℝ) * Real.sqrt (clampT inputs.T) ≠ 0 :=
    (mul_pos two_pos hsqT).ne'
  have h3 : inputs.S0 * clampSigma inputs.sigma * Real.sqrt (clampT inputs.T) ≠ 0 :=
    mul_ne_zero (mul_ne_zero hS0 hsig.ne') hsqT.ne'
  have h5 : ¬ (inputs.S0 / inputs.K ≤ 0) := not_le.mpr hpos
  have h6 : ¬ (clampT inputs.T < 0) := not_lt.mpr (clampT_pos inputs.T).le
  by_cases hopt : inputs.opt_type = "call" <;>
    simp [price_and_greeks_bsm, pyDiv, pyLog, pySqrt, hopt, hS0,
      hsig.ne', hsqT.ne', if_neg hK, if_neg h5, if_neg h6, if_neg h1,
      if_neg h2, if_neg h3, except_bind_ok, except_bind_error, except_pure_eq_ok]

theorem eval_ok_iff (inputs : BSMInputs) (theta_basis : ℤ) :
    (∃ out, price_and_greeks_bsm inputs theta_basis = Except.ok out) ↔
      (inputs.K ≠ 0 ∧ 0 < inputs.S0 / inputs.K ∧ theta_basis ≠ 0) := by
  constructor
  · rintro ⟨out, hout⟩
    by_cases hK : inputs.K = 0
    · rw [eval_err_K _ _ hK] at hout
      exact Except.noConfusion hout
    refine ⟨hK, ?_, ?_⟩
    · by_contra hle
      rw [eval_err_log _ _ hK (not_lt.mp hle)] at hout
      exact Except.noConfusion hout
    · intro hb0
      subst hb0
      by_cases hpos : 0 < inputs.S0 / inputs.K
      · rw [eval_err_basis _ hK hpos] at hout
        exact Except.noConfusion hout
      · rw [eval_err_log _ _ hK (not_lt.mp hpos)] at hout
        exact Except.noConfusion hout
  · rintro ⟨hK, hpos, hb⟩
    by_cases hopt : inputs.opt_type = "call"
    · exact ⟨_, eval_call_eq _ _ hopt hK hpos hb⟩
    · exact ⟨_, eval_put_eq _ _ hopt hK hpos hb⟩

theorem gauss_continuous : Continuous (fun t : ℝ => Real.exp (-t ^ 2)) :=
  Real.continuous_exp.comp (continuous_pow 2).neg

theorem gauss_eq_std : (fun t : ℝ => Real.exp (-t ^ 2)) =
    fun t : ℝ => Real.exp (-1 * t ^ 2) := by
  funext t
  rw [neg_one_mul]

theorem gauss_integral_nonneg {x : ℝ} (hx : 0 ≤ x) :
    0 ≤ ∫ t in (0:ℝ)..x, Real.exp (-t ^ 2) :=
  intervalIntegral.integral_nonneg hx fun _ _ => (Real.exp_pos _).le

theorem gauss_integral_le {x : ℝ} (hx : 0 ≤ x) :
    (∫ t in (0:ℝ)..x, Real.exp (-t ^ 2)) ≤ Real.sqrt π / 2 := by
  have hIoi : (∫ t in Ioi (0:ℝ), Real.exp (-t ^ 2)) = Real.sqrt π / 2 := by
    rw [gauss_eq_std]
    simpa using integral_gaussian_Ioi 1
  have hint : IntegrableOn (fun t : ℝ => Real.exp (-t ^ 2)) (Ioi 0) := by
    rw [gauss_eq_std]
    exact (integrable_exp_neg_mul_sq one_pos).integrableOn
  rw [intervalIntegral.integral_of_le hx, ← hIoi]
  refine setIntegral_mono_set hint ?_ ?_
  · exact Filter.Eventually.of_forall fun t => (Real.exp_pos _).le
  · exact (Set.Ioc_subset_Ioi_self).eventuallyLE

theorem erf_neg (x : ℝ) : erf (-x) = -erf x := by
  have h1 : (∫ t in (0:ℝ)..(-x), Real.exp (-t ^ 2)) =
      ∫ t in (0:ℝ)..(-x), Real.exp (-(-t) ^ 2) := by
    simp only [neg_sq]
  have h2 : (∫ t in (0:ℝ)..(-x), Real.exp (-(-t) ^ 2)) =
      ∫ t in (-(-x))..(-(0:ℝ)), Real.exp (-t ^ 2) :=
    intervalIntegral.integral_comp_neg (fun u => Real.exp (-u ^ 2))
  have h : (∫ t in (0:ℝ)..(-x), Real.exp (-t ^ 2)) =
      -∫ t in (0:ℝ)..x, Real.exp (-t ^ 2) := by
    rw [h1, h2, neg_neg, neg_zero]
    exact intervalIntegral.integral_symm 0 x
  unfold erf
  rw [h]
  ring

theorem erf_nonneg_of_nonneg {x : ℝ} (hx : 0 ≤ x) : 0 ≤ erf x :=
  mul_nonneg (div_nonneg (by norm_num) (Real.sqrt_nonneg _)) (gauss_integral_nonneg hx)

theorem erf_le_one (x : ℝ) : erf x ≤ 1 := by
  have hpi : (0:ℝ) < Real.sqrt π := Real.sqrt_pos.mpr Real.pi_pos
  rcases le_or_lt 0 x with hx | hx
  · unfold erf
    have := gauss_integral_le hx
    calc 2 / Real.sqrt π * ∫ t in (0:ℝ)..x, Real.exp (-t ^ 2)
        ≤ 2 / Real.sqrt π * (Real.sqrt π / 2) := by
          exact mul_le_mul_of_nonneg_left this (div_nonneg (by norm_num) hpi.le)
      _ = 1 := by field_simp
  · have h0 : 0 ≤ erf (-x) := erf_nonneg_of_nonneg (by linarith)
    rw [erf_neg] at h0
    linarith

theorem neg_one_le_erf (x : ℝ) : -1 ≤ erf x := by
  have := erf_le_one (-x)
  rw [erf_neg] at this
  linarith

theorem norm_cdf_nonneg (x : ℝ) : 0 ≤ norm_cdf x := by
  unfold norm_cdf
  have := neg_one_le_erf (x / Real.sqrt 2)
  linarith

theorem norm_cdf_le_one (x : ℝ) : norm_cdf x ≤ 1 := by
  unfold norm_cdf
  have := erf_le_one (x / Real.sqrt 2)
  linarith

theorem norm_cdf_add_neg (x : ℝ) : norm_cdf x + norm_cdf (-x) = 1 := by
  unfold norm_cdf
  rw [neg_div, erf_neg]
  ring

theorem eval_congr (i1 i2 : BSMInputs) (theta_basis : ℤ)
    (hS : i1.S0 = i2.S0) (hK : i1.K = i2.K) (hT : clampT i1.T = clampT i2.T)
    (hsig : clampSigma i1.sigma = clampSigma i2.sigma)
    (hr : i1.r = i2.r) (hq : i1.q = i2.q) (ho : i1.opt_type = i2.opt_type) :
    price_and_greeks_bsm i1 theta_basis = price_and_greeks_bsm i2 theta_basis := by
  simp only [price_and_greeks_bsm]
  rw [hS, hK, hT, hsig, hr, hq, ho]

/-- C1: for every input record with opt_type exactly "call" (on the domain
where the Python arithmetic does not raise: K nonzero, S0/K positive,
theta_basis nonzero), evaluate returns price, delta, theta_per_year,
rho_per_1 and phi_per_1 given by the Black-Scholes-Merton call formulas,
where d1 and d2 are built from the clamped T and sigma. -/
theorem C1_call_formulas (inputs : BSMInputs) (theta_basis : ℤ)
    (hopt : inputs.opt_type = "call") (hK : inputs.K ≠ 0)
    (hpos : 0 < inputs.S0 / inputs.K) (hb : theta_basis ≠ 0) :
    ∃ out, price_and_greeks_bsm inputs theta_basis = Except.ok out ∧
      out.price = inputs.S0 * Real.exp (-inputs.q * clampT inputs.T) *
          norm_cdf (d1f inputs.S0 inputs.K (clampT inputs.T) (clampSigma inputs.sigma)
            inputs.r inputs.q) -
        inputs.K * Real.exp (-inputs.r * clampT inputs.T) *
          norm_cdf (d2f inputs.S0 inputs.K (clampT inputs.T) (clampSigma inputs.sigma)
            inputs.r inputs.q) ∧
      out.delta = Real.exp (-inputs.q * clampT inputs.T) *
        norm_cdf (d1f inputs.S0 inputs.K (clampT inputs.T) (clampSigma inputs.sigma)
          inputs.r inputs.q) ∧
      out.theta_per_year = -inputs.S0 * Real.exp (-inputs.q * clampT inputs.T) *
          norm_pdf (d1f inputs.S0 inputs.K (clampT inputs.T) (clampSigma inputs.sigma)
            inputs.r inputs.q) * clampSigma inputs.sigma /
          (2 * Real.sqrt (clampT inputs.T)) +
        inputs.q * inputs.S0 * Real.exp (-inputs.q * clampT inputs.T) *
          norm_cdf (d1f inputs.S0 inputs.K (clampT inputs.T) (clampSigma inputs.sigma)
            inputs.r inputs.q) -
        inputs.r * inputs.K * Real.exp (-inputs.r * clampT inputs.T) *
          norm_cdf (d2f inputs.S0 inputs.K (clampT inputs.T) (clampSigma inputs.sigma)
            inputs.r inputs.q) ∧
      out.rho_per_1 = inputs.K * clampT inputs.T * Real.exp (-inputs.r * clampT inputs.T) *
        norm_cdf (d2f inputs.S0 inputs.K (clampT inputs.T) (clampSigma inputs.sigma)
          inputs.r inputs.q) ∧
      out.phi_per_1 = -(clampT inputs.T) * inputs.S0 * Real.exp (-inputs.q * clampT inputs.T) *
        norm_cdf (d1f inputs.S0 inputs.K (clampT inputs.T) (clampSigma inputs.sigma)
          inputs.r inputs.q) := by
  refine ⟨_, eval_call_eq inputs theta_basis hopt hK hpos hb, ?_, ?_, ?_, ?_, ?_⟩ <;>
    simp only [callOutputs]

theorem C1_call_formulas_witness :
    ∃ out, price_and_greeks_bsm exCall 365 = Except.ok out ∧
      out.delta = Real.exp (-exCall.q * clampT exCall.T) *
        norm_cdf (d1f exCall.S0 exCall.K (clampT exCall.T) (clampSigma exCall.sigma)
          exCall.r exCall.q) := by
  obtain ⟨out, h1, _, h2, _⟩ :=
    C1_call_formulas exCall 365 rfl (by norm_num [exCall]) (by norm_num [exCall]) (by norm_num)
  exact ⟨out, h1, h2⟩

/-- C2: put-call parity holds exactly for the returned prices, with the
discount factors taken at the clamped time to expiry. -/
theorem C2_put_call_parity (S0 K T sigma r q : ℝ) (theta_basis : ℤ)
    (hS0 : 0 < S0) (hK : 0 < K) (hb : theta_basis ≠ 0) :
    ∃ oc op,
      price_and_greeks_bsm ⟨S0, K, T, sigma, r, q, "call"⟩ theta_basis = Except.ok oc ∧
      price_and_greeks_bsm ⟨S0, K, T, sigma, r, q, "put"⟩ theta_basis = Except.ok op ∧
      oc.price - op.price =
        S0 * Real.exp (-q * clampT T) - K * Real.exp (-r * clampT T) := by
  have hpos : 0 < S0 / K := div_pos hS0 hK
  refine ⟨_, _, eval_call_eq ⟨S0, K, T, sigma, r, q, "call"⟩ theta_basis rfl hK.ne' hpos hb,
    eval_put_eq ⟨S0, K, T, sigma, r, q, "put"⟩ theta_basis
      (show ("put" : String) ≠ "call" by decide) hK.ne' hpos hb, ?_⟩
  simp only [callOutputs, putOutputs]
  have h1 := norm_cdf_add_neg (d1f S0 K (clampT T) (clampSigma sigma) r q)
  have h2 := norm_cdf_add_neg (d2f S0 K (clampT T) (clampSigma sigma) r q)
  linear_combination Real.exp (-q * clampT T) * S0 * h1 - Real.exp (-r * clampT T) * K * h2

theorem C2_put_call_parity_witness :
    ∃ oc op,
      price_and_greeks_bsm ⟨100, 100, 0.5, 0.2, 0.03, 0.01, "call"⟩ 365 = Except.ok oc ∧
      price_and_greeks_bsm ⟨100, 100, 0.5, 0.2, 0.03, 0.01, "put"⟩ 365 = Except.ok op ∧
      oc.price - op.price =
        100 * Real.exp (-0.01 * clampT 0.5) - 100 * Real.exp (-0.03 * clampT 0.5) :=
  C2_put_call_parity 100 100 0.5 0.2 0.03 0.01 365 (by norm_num) (by norm_num) (by norm_num)

/-- C3 (amended): the engine has no internal error handling and never returns
a distinguished error value inside the output record, but it does not always
return a record: theta_basis = 0 makes the final division raise
ZeroDivisionError, K = 0 makes S0/K raise ZeroDivisionError, a non-positive
ratio S0/K makes math.log raise ValueError, and on every remaining input a
numeric record is returned. -/
theorem C3_failure_semantics (inputs : BSMInputs) (theta_basis : ℤ) :
    (inputs.K = 0 →
      price_and_greeks_bsm inputs theta_basis = Except.error PyErr.zeroDivision) ∧
    (inputs.K ≠ 0 → inputs.S0 / inputs.K ≤ 0 →
      price_and_greeks_bsm inputs theta_basis = Except.error PyErr.domainError) ∧
    (inputs.K ≠ 0 → 0 < inputs.S0 / inputs.K →
      price_and_greeks_bsm inputs 0 = Except.error PyErr.zeroDivision) ∧
    (inputs.K ≠ 0 → 0 < inputs.S0 / inputs.K → theta_basis ≠ 0 →
      ∃ out, price_and_greeks_bsm inputs theta_basis = Except.ok out) :=
  ⟨fun hK => eval_err_K inputs theta_basis hK,
    fun hK hle => eval_err_log inputs theta_basis hK hle,
    fun hK hpos => eval_err_basis inputs hK hpos,
    fun hK hpos hb => (eval_ok_iff inputs theta_basis).mpr ⟨hK, hpos, hb⟩⟩

/-- C3 counterexample: at the reference call inputs with theta_basis = 0,
evaluate raises ZeroDivisionError; it does not return an output record with
an undefined or infinite theta_per_day. -/
theorem C3_counterexample :
    price_and_greeks_bsm exCall 0 = Except.error PyErr.zeroDivision :=
  eval_err_basis exCall (by norm_num [exCall]) (by norm_num [exCall])

theorem C3_failure_semantics_witness :
    price_and_greeks_bsm ⟨-1, 100, 0.5, 0.2, 0.03, 0.01, "call"⟩ 365 =
      Except.error PyErr.domainError ∧
    ∃ out, price_and_greeks_bsm exCall 365 = Except.ok out :=
  ⟨(C3_failure_semantics ⟨-1, 100, 0.5, 0.2, 0.03, 0.01, "call"⟩ 365).2.1
      (by norm_num) (by norm_num),
    (C3_failure_semantics exCall 365).2.2.2 (by norm_num [exCall]) (by norm_num [exCall])
      (by norm_num)⟩

/-- C4: the clamps are silent, deterministic and idempotent below the floor:
an input with T below 1e-6 evaluates exactly (field by field, identical
Except result) like the same input with T = 1e-6, an input with sigma below
1e-8 evaluates exactly like the same input with sigma = 1e-8, and on the
non-raising domain a record is returned. -/
theorem C4_clamp_idempotent (inputs : BSMInputs) (theta_basis : ℤ) :
    (inputs.T < 1e-6 →
      price_and_greeks_bsm inputs theta_basis =
        price_and_greeks_bsm { inputs with T := 1e-6 } theta_basis) ∧
    (inputs.sigma < 1e-8 →
      price_and_greeks_bsm inputs theta_basis =
        price_and_greeks_bsm { inputs with sigma := 1e-8 } theta_basis) ∧
    (inputs.K ≠ 0 → 0 < inputs.S0 / inputs.K → theta_basis ≠ 0 →
      ∃ out, price_and_greeks_bsm inputs theta_basis = Except.ok out) := by
  refine ⟨fun h => ?_, fun h => ?_,
    fun hK hpos hb => (eval_ok_iff inputs theta_basis).mpr ⟨hK, hpos, hb⟩⟩
  · refine eval_congr inputs _ theta_basis rfl rfl ?_ rfl rfl rfl rfl
    show clampT inputs.T = clampT (1e-6 : ℝ)
    rw [clampT, if_pos h, clampT, if_neg (lt_irrefl _)]
  · refine eval_congr inputs _ theta_basis rfl rfl rfl ?_ rfl rfl rfl
    show clampSigma inputs.sigma = clampSigma (1e-8 : ℝ)
    rw [clampSigma, if_pos h, clampSigma, if_neg (lt_irrefl _)]

theorem C4_clamp_idempotent_witness :
    price_and_greeks_bsm ⟨100, 100, 0, 0.2, 0.03, 0.01, "call"⟩ 365 =
      price_and_greeks_bsm ⟨100, 100, 1e-6, 0.2, 0.03, 0.01, "call"⟩ 365 ∧
    price_and_greeks_bsm ⟨100, 100, 0.5, 0, 0.03, 0.01, "call"⟩ 365 =
      price_and_greeks_bsm ⟨100, 100, 0.5, 1e-8, 0.03, 0.01, "call"⟩ 365 :=
  ⟨(C4_clamp_idempotent ⟨100, 100, 0, 0.2, 0.03, 0.01, "call"⟩ 365).1 (by norm_num),
    (C4_clamp_idempotent ⟨100, 100, 0.5, 0, 0.03, 0.01, "call"⟩ 365).2.1 (by norm_num)⟩

/-- C5: every record the engine returns satisfies the unit-conversion
equations among its own fields. -/
theorem C5_unit_conversions (inputs : BSMInputs) (theta_basis : ℤ) (out : BSMOutputs)
    (h : price_and_greeks_bsm inputs theta_basis = Except.ok out) :
    out.vega_per_volpt = out.vega_per_vol * 0.01 ∧
    out.rho_per_bp = out.rho_per_1 / 10000 ∧
    out.phi_per_bp = out.phi_per_1 / 10000 ∧
    out.theta_per_day = out.theta_per_year / (theta_basis : ℝ) := by
  obtain ⟨hK, hpos, hb⟩ := (eval_ok_iff inputs theta_basis).mp ⟨out, h⟩
  by_cases hopt : inputs.opt_type = "call"
  · rw [eval_call_eq inputs theta_basis hopt hK hpos hb] at h
    injection h with h
    subst h
    simp only [callOutputs]
    norm_num
  · rw [eval_put_eq inputs theta_basis hopt hK hpos hb] at h
    injection h with h
    subst h
    simp only [putOutputs]
    norm_num

theorem C5_unit_conversions_witness :
    (callOutputs exCall.S0 exCall.K (clampT exCall.T) (clampSigma exCall.sigma)
        exCall.r exCall.q 365).vega_per_volpt =
      (callOutputs exCall.S0 exCall.K (clampT exCall.T) (clampSigma exCall.sigma)
        exCall.r exCall.q 365).vega_per_vol * 0.01 :=
  (C5_unit_conversions exCall 365 _
    (eval_call_eq exCall 365 rfl (by norm_num [exCall]) (by norm_num [exCall])
      (by norm_num))).1

/-- C6: an opt_type that is not exactly the string "call" falls through to
the put formulas with no validation and no signal: the result is identical
to evaluating with opt_type "put", and on the non-raising domain it is the
put-branch record. -/
theorem C6_fallthrough_put (inputs : BSMInputs) (theta_basis : ℤ)
    (hopt : inputs.opt_type ≠ "call") :
    price_and_greeks_bsm inputs theta_basis =
      price_and_greeks_bsm { inputs with opt_type := "put" } theta_basis ∧
    (inputs.K ≠ 0 → 0 < inputs.S0 / inputs.K → theta_basis ≠ 0 →
      price_and_greeks_bsm inputs theta_basis =
        Except.ok (putOutputs inputs.S0 inputs.K (clampT inputs.T)
          (clampSigma inputs.sigma) inputs.r inputs.q theta_basis)) := by
  constructor
  · have h2 : ({ inputs with opt_type := "put" } : BSMInputs).opt_type ≠ "call" :=
      show ("put" : String) ≠ "call" by decide
    simp only [price_and_greeks_bsm, if_neg hopt, if_neg h2]
  · intro hK hpos hb
    exact eval_put_eq inputs theta_basis hopt hK hpos hb

theorem C6_fallthrough_put_witness :
    price_and_greeks_bsm ⟨100, 100, 0.5, 0.2, 0.03, 0.01, "Call"⟩ 365 =
      price_and_greeks_bsm ⟨100, 100, 0.5, 0.2, 0.03, 0.01, "put"⟩ 365 :=
  (C6_fallthrough_put ⟨100, 100, 0.5, 0.2, 0.03, 0.01, "Call"⟩ 365
    (show ("Call" : String) ≠ "call" by decide)).1

/-- C9: normalCDF is exactly 0.5 * (1 + erf (x / sqrt 2)) and lies in the
closed interval [0, 1], for every real x, with no failure condition. -/
theorem C9_norm_cdf_spec (x : ℝ) :
    norm_cdf x = 0.5 * (1 + erf (x / Real.sqrt 2)) ∧
    0 ≤ norm_cdf x ∧ norm_cdf x ≤ 1 :=
  ⟨by simp only [norm_cdf]; norm_num, norm_cdf_nonneg x, norm_cdf_le_one x⟩

/-- C10: for fixed parameters, the put delta equals the call delta minus
exp(-q T) exactly (T clamped), and gamma and vega_per_vol are computed
outside the branch and coincide for the two option types. -/
theorem C10_cross_branch (S0 K T sigma r q : ℝ) (theta_basis : ℤ)
    (hS0 : 0 < S0) (hK : 0 < K) (hb : theta_basis ≠ 0) :
    ∃ oc op,
      price_and_greeks_bsm ⟨S0, K, T, sigma, r, q, "call"⟩ theta_basis = Except.ok oc ∧
      price_and_greeks_bsm ⟨S0, K, T, sigma, r, q, "put"⟩ theta_basis = Except.ok op ∧
      op.delta = oc.delta - Real.exp (-q * clampT T) ∧
      op.gamma = oc.gamma ∧
      op.vega_per_vol = oc.vega_per_vol := by
  have hpos : 0 < S0 / K := div_pos hS0 hK
  refine ⟨_, _, eval_call_eq ⟨S0, K, T, sigma, r, q, "call"⟩ theta_basis rfl hK.ne' hpos hb,
    eval_put_eq ⟨S0, K, T, sigma, r, q, "put"⟩ theta_basis
      (show ("put" : String) ≠ "call" by decide) hK.ne' hpos hb, ?_, ?_, ?_⟩ <;>
    simp only [callOutputs, putOutputs]

theorem C10_cross_branch_witness :
    ∃ oc op,
      price_and_greeks_bsm ⟨100, 100, 0.5, 0.2, 0.03, 0.01, "call"⟩ 365 = Except.ok oc ∧
      price_and_greeks_bsm ⟨100, 100, 0.5, 0.2, 0.03, 0.01, "put"⟩ 365 = Except.ok op ∧
      op.delta = oc.delta - Real.exp (-0.01 * clampT 0.5) ∧
      op.gamma = oc.gamma ∧
      op.vega_per_vol = oc.vega_per_vol :=
  C10_cross_branch 100 100 0.5 0.2 0.03 0.01 365 (by norm_num) (by norm_num) (by norm_num)

/-- C7: for positive spot and strike, the returned call delta lies in
[0, exp(-q T)] and the returned put delta lies in [-exp(-q T), 0], with T
the clamped time to expiry. -/
theorem C7_delta_bounds (S0 K T sigma r q : ℝ) (theta_basis : ℤ)
    (hS0 : 0 < S0) (hK : 0 < K) (hb : theta_basis ≠ 0) :
    ∃ oc op,
      price_and_greeks_bsm ⟨S0, K, T, sigma, r, q, "call"⟩ theta_basis = Except.ok oc ∧
      price_and_greeks_bsm ⟨S0, K, T, sigma, r, q, "put"⟩ theta_basis = Except.ok op ∧
      0 ≤ oc.delta ∧ oc.delta ≤ Real.exp (-q * clampT T) ∧
      -Real.exp (-q * clampT T) ≤ op.delta ∧ op.delta ≤ 0 := by
  have hpos : 0 < S0 / K := div_pos hS0 hK
  refine ⟨_, _, eval_call_eq ⟨S0, K, T, sigma, r, q, "call"⟩ theta_basis rfl hK.ne' hpos hb,
    eval_put_eq ⟨S0, K, T, sigma, r, q, "put"⟩ theta_basis
      (show ("put" : String) ≠ "call" by decide) hK.ne' hpos hb, ?_, ?_, ?_, ?_⟩ <;>
    simp only [callOutputs, putOutputs] <;>
  · have hN0 := norm_cdf_nonneg (d1f S0 K (clampT T) (clampSigma sigma) r q)
    have hN1 := norm_cdf_le_one (d1f S0 K (clampT T) (clampSigma sigma) r q)
    have hE := Real.exp_pos (-q * clampT T)
    nlinarith

theorem C7_delta_bounds_witness :
    ∃ oc op,
      price_and_greeks_bsm ⟨100, 100, 0.5, 0.2, 0.03, 0.01, "call"⟩ 365 = Except.ok oc ∧
      price_and_greeks_bsm ⟨100, 100, 0.5, 0.2, 0.03, 0.01, "put"⟩ 365 = Except.ok op ∧
      0 ≤ oc.delta ∧ oc.delta ≤ Real.exp (-0.01 * clampT 0.5) ∧
      -Real.exp (-0.01 * clampT 0.5) ≤ op.delta ∧ op.delta ≤ 0 :=
  C7_delta_bounds 100 100 0.5 0.2 0.03 0.01 365 (by norm_num) (by norm_num) (by norm_num)

theorem hasDerivAt_erf (x : ℝ) :
    HasDerivAt erf (2 / Real.sqrt π * Real.exp (-x ^ 2)) x := by
  have hint : IntervalIntegrable (fun t : ℝ => Real.exp (-t ^ 2)) volume 0 x :=
    gauss_continuous.intervalIntegrable 0 x
  have hmeas : StronglyMeasurableAtFilter (fun t : ℝ => Real.exp (-t ^ 2)) (nhds x) :=
    gauss_continuous.stronglyMeasurableAtFilter _ _
  have h := intervalIntegral.integral_hasDerivAt_right hint hmeas
    gauss_continuous.continuousAt
  have h2 := h.const_mul (2 / Real.sqrt π)
  simpa [erf] using h2

theorem hasDerivAt_norm_cdf (x : ℝ) : HasDerivAt norm_cdf (norm_pdf x) x := by
  have h1 : HasDerivAt (fun y : ℝ => y / Real.sqrt 2) (1 / Real.sqrt 2) x := by
    simpa using (hasDerivAt_id x).div_const (Real.sqrt 2)
  have h2 := (hasDerivAt_erf (x / Real.sqrt 2)).comp x h1
  have h3 := (h2.const_add (1.0 : ℝ)).const_mul (0.5 : ℝ)
  have h4 : HasDerivAt norm_cdf
      (0.5 * (2 / Real.sqrt π * Real.exp (-(x / Real.sqrt 2) ^ 2) * (1 / Real.sqrt 2))) x := by
    simpa [norm_cdf, Function.comp] using h3
  have hsq : (-(x / Real.sqrt 2) ^ 2) = -0.5 * x * x := by
    rw [div_pow, Real.sq_sqrt (by norm_num : (0:ℝ) ≤ 2)]
    ring
  have hval : norm_pdf x =
      0.5 * (2 / Real.sqrt π * Real.exp (-(x / Real.sqrt 2) ^ 2) * (1 / Real.sqrt 2)) := by
    rw [norm_pdf, hsq, Real.sqrt_mul (by norm_num : (0:ℝ) ≤ 2)]
    have hs2 : Real.sqrt 2 ≠ 0 := by positivity
    have hsp : Real.sqrt π ≠ 0 := by positivity
    field_simp
    ring
  rw [hval]
  exact h4

theorem bsm_pdf_identity (s k Tc sc r q : ℝ) (hs : 0 < s) (hk : 0 < k)
    (hT : 0 < Tc) (hsc : 0 < sc) :
    k * Real.exp (-r * Tc) * norm_pdf (d2f s k Tc sc r q) =
      s * Real.exp (-q * Tc) * norm_pdf (d1f s k Tc sc r q) := by
  have ha : 0 < sc * Real.sqrt Tc := mul_pos hsc (Real.sqrt_pos.mpr hT)
  have ha2 : (sc * Real.sqrt Tc) ^ 2 = sc ^ 2 * Tc := by
    rw [mul_pow, Real.sq_sqrt hT.le]
  have hd1a : d1f s k Tc sc r q * (sc * Real.sqrt Tc) =
      Real.log (s / k) + (r - q + 0.5 * sc ^ 2) * Tc := by
    rw [d1f]
    field_simp
  have key : Real.exp (-0.5 * (d1f s k Tc sc r q - sc * Real.sqrt Tc) *
        (d1f s k Tc sc r q - sc * Real.sqrt Tc)) =
      Real.exp (-0.5 * d1f s k Tc sc r q * d1f s k Tc sc r q) * (s / k) *
        Real.exp ((r - q) * Tc) := by
    rw [← Real.exp_log (div_pos hs hk), ← Real.exp_add, ← Real.exp_add]
    congr 1
    linear_combination hd1a - 0.5 * ha2
  have hexp : Real.exp (-r * Tc) * Real.exp ((r - q) * Tc) = Real.exp (-q * Tc) := by
    rw [← Real.exp_add]
    congr 1
    ring
  have hks : k ≠ 0 := hk.ne'
  have h2pi : Real.sqrt (2 * π) ≠ 0 := by positivity
  rw [d2f, norm_pdf, norm_pdf]
  calc k * Real.exp (-r * Tc) *
      (Real.exp (-0.5 * (d1f s k Tc sc r q - sc * Real.sqrt Tc) *
        (d1f s k Tc sc r q - sc * Real.sqrt Tc)) / Real.sqrt (2 * π))
      = k * Real.exp (-r * Tc) *
        (Real.exp (-0.5 * d1f s k Tc sc r q * d1f s k Tc sc r q) * (s / k) *
          Real.exp ((r - q) * Tc) / Real.sqrt (2 * π)) := by rw [key]
    _ = s * (Real.exp (-r * Tc) * Real.exp ((r - q) * Tc)) *
        (Real.exp (-0.5 * d1f s k Tc sc r q * d1f s k Tc sc r q) / Real.sqrt (2 * π)) := by
          field_simp
          ring
    _ = s * Real.exp (-q * Tc) *
        (Real.exp (-0.5 * d1f s k Tc sc r q * d1f s k Tc sc r q) / Real.sqrt (2 * π)) := by
          rw [hexp]

theorem hasDerivAt_d1_spot (k Tc sc r q s : ℝ) (hs : 0 < s) (hk : 0 < k) :
    HasDerivAt (fun u => d1f u k Tc sc r q) (1 / (s * (sc * Real.sqrt Tc))) s := by
  have hsk : s / k ≠ 0 := (div_pos hs hk).ne'
  have h1 : HasDerivAt (fun u : ℝ => u / k) (1 / k) s := by
    simpa using (hasDerivAt_id s).div_const k
  have h2 := (Real.hasDerivAt_log hsk).comp s h1
  have h3 := (h2.add_const ((r - q + 0.5 * sc ^ 2) * Tc)).div_const (sc * Real.sqrt Tc)
  have h4 : HasDerivAt (fun u => d1f u k Tc sc r q)
      ((s / k)⁻¹ * (1 / k) / (sc * Real.sqrt Tc)) s := by
    simpa [d1f, Function.comp] using h3
  convert h4 using 1
  have hs' : s ≠ 0 := hs.ne'
  have hk' : k ≠ 0 := hk.ne'
  rcases eq_or_ne (sc * Real.sqrt Tc) 0 with ha | ha
  · simp [ha]
  · field_simp
    ring

theorem hasDerivAt_d1_strike (s Tc sc r q k : ℝ) (hs : 0 < s) (hk : 0 < k) :
    HasDerivAt (fun v => d1f s v Tc sc r q) (-(1 / (k * (sc * Real.sqrt Tc)))) k := by
  have hsk : s / k ≠ 0 := (div_pos hs hk).ne'
  have h1 : HasDerivAt (fun v : ℝ => s / v) (s * -(k ^ 2)⁻¹) k := by
    have := (hasDerivAt_inv hk.ne').const_mul s
    simpa [div_eq_mul_inv] using this
  have h2 := (Real.hasDerivAt_log hsk).comp k h1
  have h3 := (h2.add_const ((r - q + 0.5 * sc ^ 2) * Tc)).div_const (sc * Real.sqrt Tc)
  have h4 : HasDerivAt (fun v => d1f s v Tc sc r q)
      ((s / k)⁻¹ * (s * -(k ^ 2)⁻¹) / (sc * Real.sqrt Tc)) k := by
    simpa [d1f, Function.comp] using h3
  convert h4 using 1
  have hs' : s ≠ 0 := hs.ne'
  have hk' : k ≠ 0 := hk.ne'
  rcases eq_or_ne (sc * Real.sqrt Tc) 0 with ha | ha
  · simp [ha]
  · field_simp
    ring

theorem hasDerivAt_callPrice_spot (k Tc sc r q s : ℝ) (hs : 0 < s) (hk : 0 < k)
    (hT : 0 < Tc) (hsc : 0 < sc) :
    HasDerivAt (fun u => u * Real.exp (-q * Tc) * norm_cdf (d1f u k Tc sc r q) -
        k * Real.exp (-r * Tc) * norm_cdf (d2f u k Tc sc r q))
      (Real.exp (-q * Tc) * norm_cdf (d1f s k Tc sc r q)) s := by
  have ha : 0 < sc * Real.sqrt Tc := mul_pos hsc (Real.sqrt_pos.mpr hT)
  have hd1 := hasDerivAt_d1_spot k Tc sc r q s hs hk
  have hd2 : HasDerivAt (fun u => d2f u k Tc sc r q) (1 / (s * (sc * Real.sqrt Tc))) s := by
    simpa [d2f] using hd1.sub_const (sc * Real.sqrt Tc)
  have hN1 : HasDerivAt (fun u => norm_cdf (d1f u k Tc sc r q))
      (norm_pdf (d1f s k Tc sc r q) * (1 / (s * (sc * Real.sqrt Tc)))) s := by
    simpa [Function.comp] using (hasDerivAt_norm_cdf (d1f s k Tc sc r q)).comp s hd1
  have hN2 : HasDerivAt (fun u => norm_cdf (d2f u k Tc sc r q))
      (norm_pdf (d2f s k Tc sc r q) * (1 / (s * (sc * Real.sqrt Tc)))) s := by
    simpa [Function.comp] using (hasDerivAt_norm_cdf (d2f s k Tc sc r q)).comp s hd2
  have hu : HasDerivAt (fun u : ℝ => u * Real.exp (-q * Tc)) (Real.exp (-q * Tc)) s := by
    simpa using (hasDerivAt_id s).mul_const (Real.exp (-q * Tc))
  have hterm1 := hu.mul hN1
  have hterm2 := hN2.const_mul (k * Real.exp (-r * Tc))
  have hsub := hterm1.sub hterm2
  have hid := bsm_pdf_identity s k Tc sc r q hs hk hT hsc
  convert hsub using 1
  linear_combination (1 / (s * (sc * Real.sqrt Tc))) * hid

theorem hasDerivAt_callPrice_strike (s Tc sc r q k : ℝ) (hs : 0 < s) (hk : 0 < k)
    (hT : 0 < Tc) (hsc : 0 < sc) :
    HasDerivAt (fun v => s * Real.exp (-q * Tc) * norm_cdf (d1f s v Tc sc r q) -
        v * Real.exp (-r * Tc) * norm_cdf (d2f s v Tc sc r q))
      (-(Real.exp (-r * Tc) * norm_cdf (d2f s k Tc sc r q))) k := by
  have ha : 0 < sc * Real.sqrt Tc := mul_pos hsc (Real.sqrt_pos.mpr hT)
  have hd1 := hasDerivAt_d1_strike s Tc sc r q k hs hk
  have hd2 : HasDerivAt (fun v => d2f s v Tc sc r q)
      (-(1 / (k * (sc * Real.sqrt Tc)))) k := by
    simpa [d2f] using hd1.sub_const (sc * Real.sqrt Tc)
  have hN1 : HasDerivAt (fun v => norm_cdf (d1f s v Tc sc r q))
      (norm_pdf (d1f s k Tc sc r q) * -(1 / (k * (sc * Real.sqrt Tc)))) k := by
    simpa [Function.comp] using (hasDerivAt_norm_cdf (d1f s k Tc sc r q)).comp k hd1
  have hN2 : HasDerivAt (fun v => norm_cdf (d2f s v Tc sc r q))
      (norm_pdf (d2f s k Tc sc r q) * -(1 / (k * (sc * Real.sqrt Tc)))) k := by
    simpa [Function.comp] using (hasDerivAt_norm_cdf (d2f s k Tc sc r q)).comp k hd2
  have hterm1 := hN1.const_mul (s * Real.exp (-q * Tc))
  have hv : HasDerivAt (fun v : ℝ => v * Real.exp (-r * Tc)) (Real.exp (-r * Tc)) k := by
    simpa using (hasDerivAt_id k).mul_const (Real.exp (-r * Tc))
  have hterm2 := hv.mul hN2
  have hsub := hterm1.sub hterm2
  have hid := bsm_pdf_identity s k Tc sc r q hs hk hT hsc
  convert hsub using 1
  linear_combination (-(1 / (k * (sc * Real.sqrt Tc)))) * hid

theorem callPrice_monotoneOn_spot (k Tc sc r q : ℝ) (hk : 0 < k) (hT : 0 < Tc)
    (hsc : 0 < sc) :
    MonotoneOn (fun u => u * Real.exp (-q * Tc) * norm_cdf (d1f u k Tc sc r q) -
      k * Real.exp (-r * Tc) * norm_cdf (d2f u k Tc sc r q)) (Ioi (0:ℝ)) := by
  refine monotoneOn_of_deriv_nonneg (convex_Ioi 0) ?_ ?_ ?_
  · intro x hx
    exact (hasDerivAt_callPrice_spot k Tc sc r q x hx hk hT hsc).continuousAt.continuousWithinAt
  · rw [interior_Ioi]
    intro x hx
    exact (hasDerivAt_callPrice_spot k Tc sc r q x hx hk hT
      hsc).differentiableAt.differentiableWithinAt
  · rw [interior_Ioi]
    intro x hx
    rw [(hasDerivAt_callPrice_spot k Tc sc r q x hx hk hT hsc).deriv]
    exact mul_nonneg (Real.exp_pos _).le (norm_cdf_nonneg _)

theorem callPrice_antitoneOn_strike (s Tc sc r q : ℝ) (hs : 0 < s) (hT : 0 < Tc)
    (hsc : 0 < sc) :
    AntitoneOn (fun v => s * Real.exp (-q * Tc) * norm_cdf (d1f s v Tc sc r q) -
      v * Real.exp (-r * Tc) * norm_cdf (d2f s v Tc sc r q)) (Ioi (0:ℝ)) := by
  refine antitoneOn_of_deriv_nonpos (convex_Ioi 0) ?_ ?_ ?_
  · intro x hx
    exact (hasDerivAt_callPrice_strike s Tc sc r q x hs hx hT hsc).continuousAt.continuousWithinAt
  · rw [interior_Ioi]
    intro x hx
    exact (hasDerivAt_callPrice_strike s Tc sc r q x hs hx hT
      hsc).differentiableAt.differentiableWithinAt
  · rw [interior_Ioi]
    intro x hx
    rw [(hasDerivAt_callPrice_strike s Tc sc r q x hs hx hT hsc).deriv]
    exact neg_nonpos.mpr (mul_nonneg (Real.exp_pos _).le (norm_cdf_nonneg _))

/-- C8: with the other parameters fixed (sigma, T positive), the price
returned on the call branch is non-decreasing in the spot S0 and
non-increasing in the strike K, over positive spots and strikes. -/
theorem C8_call_price_monotone (T sigma r q : ℝ) (theta_basis : ℤ)
    (_hT : 0 < T) (_hsig : 0 < sigma) (hb : theta_basis ≠ 0) :
    (∀ S0a S0b K, 0 < S0a → S0a ≤ S0b → 0 < K →
      ∃ oa ob,
        price_and_greeks_bsm ⟨S0a, K, T, sigma, r, q, "call"⟩ theta_basis = Except.ok oa ∧
        price_and_greeks_bsm ⟨S0b, K, T, sigma, r, q, "call"⟩ theta_basis = Except.ok ob ∧
        oa.price ≤ ob.price) ∧
    (∀ S0 Ka Kb, 0 < S0 → 0 < Ka → Ka ≤ Kb →
      ∃ oa ob,
        price_and_greeks_bsm ⟨S0, Ka, T, sigma, r, q, "call"⟩ theta_basis = Except.ok oa ∧
        price_and_greeks_bsm ⟨S0, Kb, T, sigma, r, q, "call"⟩ theta_basis = Except.ok ob ∧
        ob.price ≤ oa.price) := by
  constructor
  · intro S0a S0b K hSa hab hK
    have hSb : 0 < S0b := lt_of_lt_of_le hSa hab
    refine ⟨_, _,
      eval_call_eq ⟨S0a, K, T, sigma, r, q, "call"⟩ theta_basis rfl hK.ne'
        (div_pos hSa hK) hb,
      eval_call_eq ⟨S0b, K, T, sigma, r, q, "call"⟩ theta_basis rfl hK.ne'
        (div_pos hSb hK) hb, ?_⟩
    have hmono := callPrice_monotoneOn_spot K (clampT T) (clampSigma sigma) r q hK
      (clampT_pos T) (clampSigma_pos sigma)
    have hle := hmono (mem_Ioi.mpr hSa) (mem_Ioi.mpr hSb) hab
    simpa only [callOutputs] using hle
  · intro S0 Ka Kb hS0 hKa hab
    have hKb : 0 < Kb := lt_of_lt_of_le hKa hab
    refine ⟨_, _,
      eval_call_eq ⟨S0, Ka, T, sigma, r, q, "call"⟩ theta_basis rfl hKa.ne'
        (div_pos hS0 hKa) hb,
      eval_call_eq ⟨S0, Kb, T, sigma, r, q, "call"⟩ theta_basis rfl hKb.ne'
        (div_pos hS0 hKb) hb, ?_⟩
    have hanti := callPrice_antitoneOn_strike S0 (clampT T) (clampSigma sigma) r q hS0
      (clampT_pos T) (clampSigma_pos sigma)
    have hle := hanti (mem_Ioi.mpr hKa) (mem_Ioi.mpr hKb) hab
    simpa only [callOutputs] using hle

theorem C8_call_price_monotone_witness :
    (∃ oa ob,
      price_and_greeks_bsm ⟨100, 100, 0.5, 0.2, 0.03, 0.01, "call"⟩ 365 = Except.ok oa ∧
      price_and_greeks_bsm ⟨110, 100, 0.5, 0.2, 0.03, 0.01, "call"⟩ 365 = Except.ok ob ∧
      oa.price ≤ ob.price) ∧
    (∃ oa ob,
      price_and_greeks_bsm ⟨100, 90, 0.5, 0.2, 0.03, 0.01, "call"⟩ 365 = Except.ok oa ∧
      price_and_greeks_bsm ⟨100, 110, 0.5, 0.2, 0.03, 0.01, "call"⟩ 365 = Except.ok ob ∧
      ob.price ≤ oa.price) :=
  ⟨(C8_call_price_monotone 0.5 0.2 0.03 0.01 365 (by norm_num) (by norm_num) (by norm_num)).1
      100 110 100 (by norm_num) (by norm_num) (by norm_num),
    (C8_call_price_monotone 0.5 0.2 0.03 0.01 365 (by norm_num) (by norm_num) (by norm_num)).2
      100 90 110 (by norm_num) (by norm_num) (by norm_num)⟩
